import Mathlib

/- Verification development for the ObjectSync incremental backup tool.
   The definitions below are a shallow embedding of the Go sources:
   the download path (package backup: filterObjects, needsDownload,
   loadState, saveState, updateState), the upload path (package upload:
   filterFiles, needsUpload, updateState), the multi-bucket orchestrator
   (internal/app runBucketsBackup) and the size formatter
   (internal/progress FormatSize).
   Machine integers (int64 sizes, time.Time instants compared with Equal)
   are modelled as Int; none of the verified properties involve overflow.
   The filesystem and object store are modelled by explicit existence
   probes (String -> Bool) and by an explicit state-file value. -/

namespace ObjectSync

/- FileState mirrors the Go struct of the same name (etag, last_modified,
   size); time.Time is an Int instant, time.Equal is Int equality. -/
structure FileState where
  etag : String
  lastModified : Int
  size : Int
deriving Repr, DecidableEq

/- The Go field State.Files is a map from object key to FileState.
   It is modelled as an association list with map semantics given by
   lookupFile and insertFile below. -/
abbrev StateFiles := List (String × FileState)

/- State mirrors the Go struct State (last_backup plus the files map). -/
structure State where
  lastBackup : Int
  files : StateFiles
deriving Repr, DecidableEq

/- Map lookup, first match wins (association lists built by insertFile
   never hold a key twice). -/
def lookupFile : StateFiles → String → Option FileState
  | [], _ => none
  | (k', v) :: m, k => if k' = k then some v else lookupFile m k

/- Map update: replace the existing entry for the key, or append. -/
def insertFile : StateFiles → String → FileState → StateFiles
  | [], k, v => [(k, v)]
  | (k', v') :: m, k, v =>
      if k' = k then (k, v) :: m else (k', v') :: insertFile m k v

/- Sequence of map updates, in list order (later entries win). -/
def insertAll (m : StateFiles) (l : List (String × FileState)) : StateFiles :=
  l.foldl (fun acc p => insertFile acc p.1 p.2) m

/- One remote object as returned by the S3 listing: key, raw ETag
   (possibly quoted), LastModified instant and size. -/
structure S3Object where
  key : String
  etag : String
  lastModified : Int
  size : Int
deriving Repr, DecidableEq

/- One local file produced by scanLocalFiles (upload side). Field order
   follows the Go struct LocalFile. -/
structure LocalFile where
  path : String
  key : String
  size : Int
  lastModified : Int
  isDir : Bool
deriving Repr, DecidableEq

/- strings.Trim(s, "\"") removes every leading and trailing quote. -/
def trimQuotes (s : String) : String :=
  String.mk (((s.data.dropWhile (fun c => c == '"')).reverse.dropWhile
    (fun c => c == '"')).reverse)

/- strings.HasSuffix(key, "/"): as the suffix is the single character
   slash, the test is whether the last character is a slash. -/
def endsWithSlash (s : String) : Bool := s.data.getLast? == some '/'

/- filepath.Join(outputDir, key) for the relative keys this tool uses;
   path cleaning is not modelled, the claims use the result only as the
   argument of an abstract existence probe. -/
def joinPath (dir key : String) : String := dir ++ "/" ++ key

/- The fingerprint updateState records for a listed object: the trimmed
   ETag, the LastModified instant and the size. -/
def freshEntry (o : S3Object) : String × FileState :=
  (o.key, { etag := trimQuotes o.etag, lastModified := o.lastModified, size := o.size })

/- The fingerprint the upload updateState records for a transferred file:
   the ETag is left empty by the Go code. -/
def uploadEntry (f : LocalFile) : String × FileState :=
  (f.key, { etag := "", lastModified := f.lastModified, size := f.size })

/- needsDownload from the backup package. The Go function stats the
   local path in both the marker branch and the file branch with the
   identical check (os.Stat plus os.IsNotExist), so the two branches
   collapse into one existence test; dest p is true exactly when the
   stat of p does not report not-exist. On a missing path the function
   returns true at once; otherwise the state record is consulted and
   the entry is stale when the ETag, the modification instant or the
   size differs. -/
def needsDownload (dest : String → Bool) (outputDir key etag : String)
    (lastModified size : Int) (files : StateFiles) : Bool :=
  if !(dest (joinPath outputDir key)) then true
  else
    match lookupFile files key with
    | none => true
    | some st =>
        st.etag != etag || st.lastModified != lastModified || st.size != size

/- The loop body of filterObjects: skip empty keys, select everything
   when not incremental, gate directory markers on the existence of the
   local directory, and defer to needsDownload otherwise (with the ETag
   trimmed first, as in the Go code). -/
def selectObject (incremental : Bool) (dest : String → Bool) (outputDir : String)
    (files : StateFiles) (obj : S3Object) : Bool :=
  if obj.key == "" then false
  else if !incremental then true
  else if endsWithSlash obj.key && obj.size == 0 then
    !(dest (joinPath outputDir obj.key))
  else
    needsDownload dest outputDir obj.key (trimQuotes obj.etag)
      obj.lastModified obj.size files

/- filterObjects from the backup package (append-if-selected loop). -/
def filterObjects (incremental : Bool) (dest : String → Bool) (outputDir : String)
    (files : StateFiles) (objects : List S3Object) : List S3Object :=
  objects.filter (selectObject incremental dest outputDir files)

/- needsUpload from the upload package: only the modification instant
   and the size of the recorded fingerprint are compared; the ETag is
   never consulted and no destination probe exists in the function. -/
def needsUpload (files : StateFiles) (f : LocalFile) : Bool :=
  match lookupFile files f.key with
  | none => true
  | some st => st.lastModified != f.lastModified || st.size != f.size

/- The loop body of filterFiles: everything when not incremental,
   otherwise needsUpload. -/
def selectFile (incremental : Bool) (files : StateFiles) (f : LocalFile) : Bool :=
  if !incremental then true else needsUpload files f

/- filterFiles from the upload package. -/
def filterFiles (incremental : Bool) (files : StateFiles)
    (l : List LocalFile) : List LocalFile :=
  l.filter (selectFile incremental files)

/- updateState from the backup package: a no-op when not incremental;
   otherwise every listed object with a nonempty key is written into the
   existing files map with its fresh fingerprint (trimmed ETag). The
   map is not cleared first. -/
def updateState (incremental : Bool) (files : StateFiles)
    (objects : List S3Object) : StateFiles :=
  if !incremental then files
  else
    objects.foldl
      (fun m o => if o.key == "" then m else insertFile m o.key (freshEntry o).2)
      files

/- updateState from the upload package: called by Run with the uploaded
   subset only; each transferred file is written with an empty ETag. -/
def updateStateUpload (incremental : Bool) (files : StateFiles)
    (uploaded : List LocalFile) : StateFiles :=
  if !incremental then files
  else uploaded.foldl (fun m f => insertFile m f.key (uploadEntry f).2) files

/- The on-disk state file as the load path sees it: absent (os.Open
   reports not-exist), unreadable or undecodable (any other open error
   or a json decode error), or a stored state. -/
inductive StateFile where
  | absent : StateFile
  | invalid : String → StateFile
  | stored : State → StateFile
deriving Repr, DecidableEq

/- The state a fresh Backup value starts from (New allocates an empty
   files map). -/
def emptyState : State := { lastBackup := 0, files := [] }

/- loadState from the backup package (the upload one is identical up to
   field names): when not incremental it returns at once and the state
   keeps the fresh empty value; a missing file keeps the empty value;
   any other open or decode failure is returned as the error. -/
def loadState (incremental : Bool) (f : StateFile) : Except String State :=
  if !incremental then Except.ok emptyState
  else
    match f with
    | StateFile.absent => Except.ok emptyState
    | StateFile.invalid e => Except.error e
    | StateFile.stored st => Except.ok st

/- saveState: when not incremental it returns before touching the file;
   otherwise it stamps lastBackup with the current instant and overwrites
   the file with the encoded state. The result is the new file content. -/
def saveState (incremental : Bool) (now : Int) (st : State)
    (f : StateFile) : StateFile :=
  if !incremental then f
  else StateFile.stored { st with lastBackup := now }

/- The json encoding of a State: the last_backup member and one object
   member per files entry. Member order is irrelevant to the decoded
   map; the model keeps the entry order of the map itself. -/
def encodeState (st : State) : Int × List (String × FileState) :=
  (st.lastBackup, st.files)

/- json decoding into a fresh Backup value: each member of the files
   object is inserted into the initially empty map, later members
   overriding earlier ones. -/
def decodeState (j : Int × List (String × FileState)) : State :=
  { lastBackup := j.1, files := insertAll [] j.2 }

/- What runBucketsBackup accumulates over the bucket list: which buckets
   had their backup run invoked (in order), and the success and failure
   counters. -/
structure BackupSummary where
  executed : List String
  successCount : Nat
  failureCount : Nat
deriving Repr, DecidableEq

/- The loop body of runBucketsBackup in internal/app: the bucket backup
   is run; on error the failure counter is bumped and the loop continues
   with the next bucket, otherwise the success counter is bumped. A
   bucket is abstracted to its name paired with the outcome of Run. -/
def runBucketStep (acc : BackupSummary) (b : String × Bool) : BackupSummary :=
  if b.2 then
    { acc with executed := acc.executed ++ [b.1], successCount := acc.successCount + 1 }
  else
    { acc with executed := acc.executed ++ [b.1], failureCount := acc.failureCount + 1 }

/- runBucketsBackup from internal/app: drive every configured bucket in
   order and afterwards return the aggregate error exactly when the
   failure counter is positive. -/
def runBucketsBackup (buckets : List (String × Bool)) :
    BackupSummary × Option String :=
  let s := buckets.foldl runBucketStep
    { executed := [], successCount := 0, failureCount := 0 }
  (s, if s.failureCount > 0 then some "some buckets failed" else none)

/- The unit table of FormatSize in internal/progress. -/
def sizeUnits : List String := ["KB", "MB", "GB", "TB", "PB"]

/- The division loop of FormatSize: starting from n = size / 1024, count
   how many times n can be divided by 1024 while staying at least 1024.
   The fuel argument only bounds the recursion depth; since each step
   divides n by 1024, fuel = n (as used by unitExp) is never exhausted
   before the guard fails. -/
def unitExpAux : Nat → Nat → Nat
  | 0, _ => 0
  | fuel + 1, n => if 1024 ≤ n then unitExpAux fuel (n / 1024) + 1 else 0

def unitExp (n : Nat) : Nat := unitExpAux n n

/- FormatSize from internal/progress, on the non-negative int64 inputs
   the claim quantifies over. Go indexes the five element unit table
   with the loop counter and panics out of bounds; the model returns
   none exactly there. The one-decimal float rendering of the scaled
   value is abstracted to integer division (irrelevant to the indexing
   property); div equals 1024 raised to exp + 1 as in the Go loop. -/
def FormatSize (size : Nat) : Option String :=
  if size < 1024 then some (toString size ++ " B")
  else
    let e := unitExp (size / 1024)
    match sizeUnits[e]? with
    | some u => some (toString (size / 1024 ^ (e + 1)) ++ " " ++ u)
    | none => none

/- Modelled effect of a successful downloadObjects pass on the local
   tree: every selected object's local path exists afterwards (regular
   objects are written with os.Create, markers with os.MkdirAll), and
   every path that existed before still exists. -/
def afterDownload (dest : String → Bool) (outputDir : String)
    (downloaded : List S3Object) : String → Bool :=
  fun p => dest p || downloaded.any (fun o => joinPath outputDir o.key == p)

/- Basic map lemmas for the association-list model. -/

theorem lookupFile_insertFile_self (m : StateFiles) (k : String) (v : FileState) :
    lookupFile (insertFile m k v) k = some v := by
  induction m with
  | nil => simp [insertFile, lookupFile]
  | cons p m ih =>
      by_cases h : p.1 = k
      · simp [insertFile, h, lookupFile]
      · simp [insertFile, h, lookupFile, ih]

theorem lookupFile_insertFile_ne (m : StateFiles) (k k' : String) (v : FileState)
    (h : k' ≠ k) : lookupFile (insertFile m k v) k' = lookupFile m k' := by
  induction m with
  | nil => simp [insertFile, lookupFile, Ne.symm h]
  | cons p m ih =>
      by_cases hp : p.1 = k
      · subst hp
        simp [insertFile, lookupFile, Ne.symm h]
      · simp [insertFile, hp, lookupFile, ih]

theorem insertAll_cons (m : StateFiles) (p : String × FileState)
    (l : List (String × FileState)) :
    insertAll m (p :: l) = insertAll (insertFile m p.1 p.2) l := rfl

theorem lookupFile_insertAll_of_forall_ne (l : List (String × FileState)) :
    ∀ (m : StateFiles) (k : String), (∀ p ∈ l, p.1 ≠ k) →
    lookupFile (insertAll m l) k = lookupFile m k := by
  induction l with
  | nil => intro m k _; rfl
  | cons p l ih =>
      intro m k h
      rw [insertAll_cons, ih _ _ (fun q hq => h q (List.mem_cons_of_mem p hq)),
        lookupFile_insertFile_ne]
      exact fun hk => h p (List.mem_cons_self p l) hk.symm

theorem lookupFile_insertAll_mem (l : List (String × FileState)) :
    ∀ (m : StateFiles) (k : String) (v : FileState),
    (l.map Prod.fst).Nodup → (k, v) ∈ l →
    lookupFile (insertAll m l) k = some v := by
  induction l with
  | nil => intro m k v _ hm; cases hm
  | cons p l ih =>
      intro m k v hnd hm
      have hnd' : (l.map Prod.fst).Nodup := (List.nodup_cons.mp hnd).2
      have hni : p.1 ∉ l.map Prod.fst := (List.nodup_cons.mp hnd).1
      rcases List.mem_cons.mp hm with h | h
      · subst h
        rw [insertAll_cons, lookupFile_insertAll_of_forall_ne]
        · exact lookupFile_insertFile_self m k v
        · intro q hq hqk
          exact hni (by simpa [hqk] using List.mem_map_of_mem Prod.fst hq)
      · rw [insertAll_cons]
        exact ih _ k v hnd' h

theorem insertFile_of_not_mem (m : StateFiles) (k : String) (v : FileState)
    (h : k ∉ m.map Prod.fst) : insertFile m k v = m ++ [(k, v)] := by
  induction m with
  | nil => rfl
  | cons p m ih =>
      have h1 : p.1 ≠ k := fun hk => h (by simp [hk])
      have h2 : k ∉ m.map Prod.fst := fun hk => h (by simp [hk])
      simp [insertFile, h1, ih h2]

theorem insertAll_of_disjoint (l : List (String × FileState)) :
    ∀ (m : StateFiles), (l.map Prod.fst).Nodup →
    (∀ p ∈ l, p.1 ∉ m.map Prod.fst) →
    insertAll m l = m ++ l := by
  induction l with
  | nil => intro m _ _; simp [insertAll]
  | cons p l ih =>
      intro m hnd hdis
      have hnd' : (l.map Prod.fst).Nodup := (List.nodup_cons.mp hnd).2
      have hni : p.1 ∉ l.map Prod.fst := (List.nodup_cons.mp hnd).1
      rw [insertAll_cons,
        insertFile_of_not_mem m p.1 p.2 (hdis p (List.mem_cons_self p l)),
        ih (m ++ [(p.1, p.2)]) hnd']
      · simp
      · intro q hq
        simp only [List.map_append, List.mem_append]
        rintro (hm | hsingle)
        · exact hdis q (List.mem_cons_of_mem p hq) hm
        · simp only [List.map_cons, List.map_nil, List.mem_singleton] at hsingle
          exact hni (hsingle ▸ List.mem_map_of_mem Prod.fst hq)

/- The backup updateState as a bulk map update over the nonempty-key
   objects with their fresh fingerprints. -/
theorem updateState_eq_insertAll (objs : List S3Object) :
    ∀ st : StateFiles, updateState true st objs =
      insertAll st ((objs.filter (fun o => !(o.key == ""))).map freshEntry) := by
  induction objs with
  | nil => intro st; rfl
  | cons o objs ih =>
      intro st
      by_cases h : o.key == ""
      · simp only [updateState, List.foldl_cons, h, if_true, List.filter_cons,
          Bool.not_eq_true', Bool.not_true] at *
        simpa [h] using ih st
      · simp only [updateState, Bool.not_true, if_false, List.foldl_cons, h,
          if_false, List.filter_cons] at *
        simpa [h, insertAll_cons, freshEntry] using ih (insertFile st o.key (freshEntry o).2)

/- The upload updateState as a bulk map update over all given files. -/
theorem updateStateUpload_eq_insertAll (sel : List LocalFile) (st : StateFiles) :
    updateStateUpload true st sel = insertAll st (sel.map uploadEntry) := by
  simp only [updateStateUpload, Bool.not_true, if_false, insertAll, List.foldl_map]
  rfl

/- After the backup updateState, every listed object with a nonempty key
   maps to its freshly observed fingerprint (keys of the listing assumed
   pairwise distinct, as an S3 listing reports each key once). -/
theorem lookupFile_updateState_mem (st : StateFiles) (objs : List S3Object)
    (o : S3Object) (hnd : (objs.map S3Object.key).Nodup) (ho : o ∈ objs)
    (hk : (o.key == "") = false) :
    lookupFile (updateState true st objs) o.key = some (freshEntry o).2 := by
  rw [updateState_eq_insertAll]
  apply lookupFile_insertAll_mem
  · have hmapeq :
        ((objs.filter (fun o => !(o.key == ""))).map freshEntry).map Prod.fst =
        (objs.filter (fun o => !(o.key == ""))).map S3Object.key := by
      simp [List.map_map]
      intro o _ _
      rfl
    rw [hmapeq]
    exact hnd.sublist ((List.filter_sublist objs).map S3Object.key)
  · have : o ∈ objs.filter (fun o => !(o.key == "")) :=
      List.mem_filter.mpr ⟨ho, by simp [hk]⟩
    exact List.mem_map_of_mem freshEntry this

/- Keys never mentioned by the listing keep their previous record: the
   backup updateState does not prune. -/
theorem lookupFile_updateState_not_mem (st : StateFiles) (objs : List S3Object)
    (k : String) (h : ∀ o ∈ objs, o.key ≠ k) :
    lookupFile (updateState true st objs) k = lookupFile st k := by
  rw [updateState_eq_insertAll]
  apply lookupFile_insertAll_of_forall_ne
  intro p hp
  rcases List.mem_map.mp hp with ⟨o, ho, rfl⟩
  exact h o (List.mem_of_mem_filter ho)

/- After the upload updateState, every transferred file maps to its fresh
   record, whose ETag the Go code leaves empty. -/
theorem lookupFile_updateStateUpload_mem (st : StateFiles) (sel : List LocalFile)
    (f : LocalFile) (hnd : (sel.map LocalFile.key).Nodup) (hf : f ∈ sel) :
    lookupFile (updateStateUpload true st sel) f.key = some (uploadEntry f).2 := by
  rw [updateStateUpload_eq_insertAll]
  apply lookupFile_insertAll_mem
  · have hmapeq : ((sel.map uploadEntry).map Prod.fst) = sel.map LocalFile.key := by
      simp [List.map_map]
      intro f _
      rfl
    rw [hmapeq]; exact hnd
  · exact List.mem_map_of_mem uploadEntry hf

/- Keys outside the transferred subset keep their previous record: the
   upload updateState neither prunes nor refreshes skipped files. -/
theorem lookupFile_updateStateUpload_not_mem (st : StateFiles)
    (sel : List LocalFile) (k : String) (h : ∀ f ∈ sel, f.key ≠ k) :
    lookupFile (updateStateUpload true st sel) k = lookupFile st k := by
  rw [updateStateUpload_eq_insertAll]
  apply lookupFile_insertAll_of_forall_ne
  intro p hp
  rcases List.mem_map.mp hp with ⟨f, hf, rfl⟩
  exact h f hf

/- The orchestrator fold, characterized over an arbitrary accumulator. -/
theorem runBucketStep_foldl (bs : List (String × Bool)) :
    ∀ acc : BackupSummary,
      (bs.foldl runBucketStep acc).executed = acc.executed ++ bs.map Prod.fst ∧
      (bs.foldl runBucketStep acc).successCount =
        acc.successCount + bs.countP (fun b => b.2) ∧
      (bs.foldl runBucketStep acc).failureCount =
        acc.failureCount + bs.countP (fun b => !b.2) := by
  induction bs with
  | nil => intro acc; simp
  | cons b bs ih =>
      intro acc
      rcases ih (runBucketStep acc b) with ⟨h1, h2, h3⟩
      have e1 : (runBucketStep acc b).executed = acc.executed ++ [b.1] := by
        by_cases hb : b.2 <;> simp [runBucketStep, hb]
      have e2 : (runBucketStep acc b).successCount =
          acc.successCount + (if b.2 then 1 else 0) := by
        by_cases hb : b.2 <;> simp [runBucketStep, hb]
      have e3 : (runBucketStep acc b).failureCount =
          acc.failureCount + (if b.2 then 0 else 1) := by
        by_cases hb : b.2 <;> simp [runBucketStep, hb]
      refine ⟨?_, ?_, ?_⟩
      · rw [List.foldl_cons, h1, e1]
        simp
      · rw [List.foldl_cons, h2, e2, List.countP_cons]
        by_cases hb : b.2 <;> simp [hb]
        all_goals omega
      · rw [List.foldl_cons, h3, e3, List.countP_cons]
        by_cases hb : b.2 <;> simp [hb]
        all_goals omega

/-- C6: a failing job does not prevent any later job from running: the
orchestrator invokes every configured bucket backup in order, its failure
counter equals the number of failing jobs (and the success counter the
number of succeeding ones), and it returns the aggregate error exactly
when at least one job failed. -/
theorem orchestrator_isolation (buckets : List (String × Bool)) :
    (runBucketsBackup buckets).1.executed = buckets.map Prod.fst ∧
    (runBucketsBackup buckets).1.failureCount = buckets.countP (fun b => !b.2) ∧
    (runBucketsBackup buckets).1.successCount = buckets.countP (fun b => b.2) ∧
    ((runBucketsBackup buckets).2.isSome ↔ ∃ b ∈ buckets, b.2 = false) := by
  rcases runBucketStep_foldl buckets
    { executed := [], successCount := 0, failureCount := 0 } with ⟨h1, h2, h3⟩
  refine ⟨by simpa using h1, by simpa using h3, by simpa using h2, ?_⟩
  have hfc : (runBucketsBackup buckets).1.failureCount =
      buckets.countP (fun b => !b.2) := by simpa using h3
  constructor
  · intro hs
    have hpos : 0 < buckets.countP (fun b => !b.2) := by
      by_contra hz
      have hz' : buckets.countP (fun b => !b.2) = 0 := by omega
      simp [runBucketsBackup, hz'] at hs
      rcases runBucketStep_foldl buckets
        { executed := [], successCount := 0, failureCount := 0 } with ⟨_, _, h3'⟩
      simp [h3', hz'] at hs
    rcases List.countP_pos_iff.mp hpos with ⟨b, hb, hbp⟩
    exact ⟨b, hb, by simpa using hbp⟩
  · rintro ⟨b, hb, hbf⟩
    have hpos : 0 < buckets.countP (fun b => !b.2) :=
      List.countP_pos_iff.mpr ⟨b, hb, by simp [hbf]⟩
    have : 0 < (runBucketsBackup buckets).1.failureCount := by rw [hfc]; exact hpos
    simp only [runBucketsBackup] at this ⊢
    simp [this]

/-- C7: with incrementalEnabled false, every catalog entry with a
nonempty key is selected unconditionally (on the upload side every entry
at all), and the state file is neither read nor written: loadState
returns the fresh empty state whatever the file holds, saveState leaves
the file untouched, and both state-update steps leave the map unchanged. -/
theorem non_incremental_full_transfer :
    (∀ (dest : String → Bool) (od : String) (st : StateFiles) (objs : List S3Object),
      filterObjects false dest od st objs = objs.filter (fun o => !(o.key == ""))) ∧
    (∀ (st : StateFiles) (files : List LocalFile),
      filterFiles false st files = files) ∧
    (∀ f : StateFile, loadState false f = Except.ok emptyState) ∧
    (∀ (now : Int) (st : State) (f : StateFile), saveState false now st f = f) ∧
    (∀ (st : StateFiles) (objs : List S3Object), updateState false st objs = st) ∧
    (∀ (st : StateFiles) (sel : List LocalFile), updateStateUpload false st sel = st) := by
  refine ⟨?_, ?_, ?_, ?_, ?_, ?_⟩
  · intro dest od st objs
    apply List.filter_congr
    intro o _
    by_cases h : o.key == "" <;> simp [selectObject, h]
  · intro st files
    apply List.filter_eq_self.mpr
    intro f _
    simp [selectFile]
  · intro f; rfl
  · intro now st f; rfl
  · intro st objs; rfl
  · intro st sel; rfl

/-- C8: for an incremental job, loading a missing state file succeeds
with the empty state (no entries); an unreadable or undecodable file is
the only load error, and a stored state loads as itself. -/
theorem load_missing_state_empty :
    loadState true StateFile.absent = Except.ok emptyState ∧
    emptyState.files = [] ∧
    (∀ e : String, loadState true (StateFile.invalid e) = Except.error e) ∧
    (∀ st : State, loadState true (StateFile.stored st) = Except.ok st) :=
  ⟨rfl, rfl, fun _ => rfl, fun _ => rfl⟩

/- Upper bound for the division loop of FormatSize, independent of the
   fuel: a value below 1024 to the power k + 1 yields a counter of at
   most k. -/
theorem unitExpAux_le (fuel : Nat) : ∀ (n k : Nat), n < 1024 ^ (k + 1) →
    unitExpAux fuel n ≤ k := by
  induction fuel with
  | zero => intro n k _; simp [unitExpAux]
  | succ fuel ih =>
      intro n k h
      by_cases hn : 1024 ≤ n
      · match k with
        | 0 =>
            have h' : n < 1024 := by simpa using h
            exact absurd h' (Nat.not_lt.mpr hn)
        | k + 1 =>
            have hdiv : n / 1024 < 1024 ^ (k + 1) := by
              rw [Nat.div_lt_iff_lt_mul (by norm_num : (0:Nat) < 1024)]
              calc n < 1024 ^ (k + 2) := h
                _ = 1024 ^ (k + 1) * 1024 := pow_succ 1024 (k + 1)
            have := ih (n / 1024) k hdiv
            simp [unitExpAux, hn]
            omega
      · simp [unitExpAux, hn]

/-- C10 (amended): FormatSize returns a formatted string for every
non-negative size below 1024 to the sixth power (one exbibyte): up to
there the unit counter stays within the five entry unit table. At and
above that bound the counter reaches the table length and the lookup
goes out of bounds (the Go code panics; see the counterexample). -/
theorem formatSize_total_below_exbi (size : Nat) (h : size < 1024 ^ 6) :
    (FormatSize size).isSome = true := by
  by_cases hlt : size < 1024
  · simp [FormatSize, hlt]
  · have h5 : unitExp (size / 1024) ≤ 4 := by
      apply unitExpAux_le
      rw [Nat.div_lt_iff_lt_mul (by norm_num : (0:Nat) < 1024)]
      calc size < 1024 ^ 6 := h
        _ = 1024 ^ 5 * 1024 := pow_succ 1024 5
    have hlen : unitExp (size / 1024) < sizeUnits.length := by
      simp only [sizeUnits, List.length_cons, List.length_nil]
      omega
    have hsome : (sizeUnits[unitExp (size / 1024)]?).isSome := by
      rw [List.getElem?_eq_getElem hlen]
      rfl
    rcases Option.isSome_iff_exists.mp hsome with ⟨u, hu⟩
    simp [FormatSize, hlt, hu]

/-- Witness for C10: one concrete size below the bound formats fine. -/
theorem formatSize_total_below_exbi_witness :
    123456 < 1024 ^ 6 ∧ (FormatSize 123456).isSome = true :=
  ⟨by norm_num, formatSize_total_below_exbi 123456 (by norm_num)⟩

/-- C10 counterexample: at exactly 1024 to the sixth power (a valid
int64, about 1.15e18) the loop counter reaches 5 and indexing the five
entry unit table is out of bounds, so no formatted string is produced;
the Go function panics instead of returning. The claim that the index
always stays within bounds for every non-negative int64 is false. -/
theorem formatSize_exbi_out_of_bounds : FormatSize (1024 ^ 6) = none := by
  decide

/- Concrete existence probes used by witnesses. -/
def destAlwaysTrue : String → Bool := fun _ => true
def destAlwaysFalse : String → Bool := fun _ => false

/-- C1 (amended): with the destination present and a recorded
fingerprint at hand, the download diff skips exactly when all three
fields (contentTag, modifiedAt, sizeBytes) match; the upload diff,
however, skips exactly when modifiedAt and sizeBytes match, the
contentTag being ignored entirely (the upload path records it as the
empty string and never compares it; see the counterexample). -/
theorem fingerprint_comparison_fields :
    (∀ (dest : String → Bool) (od key etag : String) (t s : Int)
        (files : StateFiles) (fp : FileState),
      dest (joinPath od key) = true →
      lookupFile files key = some fp →
      (needsDownload dest od key etag t s files = false ↔
        fp.etag = etag ∧ fp.lastModified = t ∧ fp.size = s)) ∧
    (∀ (files : StateFiles) (f : LocalFile) (fp : FileState),
      lookupFile files f.key = some fp →
      (needsUpload files f = false ↔
        fp.lastModified = f.lastModified ∧ fp.size = f.size)) := by
  constructor
  · intro dest od key etag t s files fp hdest hlk
    simp [needsDownload, hdest, hlk]
    exact and_assoc
  · intro files f fp hlk
    simp [needsUpload, hlk]

/-- Witness for C1: concrete matching download and upload entries. -/
theorem fingerprint_comparison_fields_witness :
    (needsDownload destAlwaysTrue "out" "a.txt" "t1" 100 10
        [("a.txt", { etag := "t1", lastModified := 100, size := 10 })] = false ↔
      ({ etag := "t1", lastModified := 100, size := 10 } : FileState).etag = "t1" ∧
      ({ etag := "t1", lastModified := 100, size := 10 } : FileState).lastModified = 100 ∧
      ({ etag := "t1", lastModified := 100, size := 10 } : FileState).size = 10) ∧
    (needsUpload [("a.txt", ⟨"", 100, 10⟩)] ⟨"in/a.txt", "a.txt", 10, 100, false⟩ = false ↔
      (⟨"", 100, 10⟩ : FileState).lastModified =
        (⟨"in/a.txt", "a.txt", 10, 100, false⟩ : LocalFile).lastModified ∧
      (⟨"", 100, 10⟩ : FileState).size =
        (⟨"in/a.txt", "a.txt", 10, 100, false⟩ : LocalFile).size) :=
  ⟨fingerprint_comparison_fields.1 destAlwaysTrue "out" "a.txt" "t1" 100 10
      [("a.txt", ⟨"t1", 100, 10⟩)] ⟨"t1", 100, 10⟩ rfl (by decide),
   fingerprint_comparison_fields.2 [("a.txt", ⟨"", 100, 10⟩)]
      ⟨"in/a.txt", "a.txt", 10, 100, false⟩ ⟨"", 100, 10⟩ (by decide)⟩

/-- C1 counterexample: an upload entry whose recorded fingerprint
differs from the freshly observed one in the contentTag field alone
(the recorded ETag is nonempty, the upload path observes the empty one)
is nevertheless skipped, so selection does not require equality on all
three fields on upload jobs, refuting the claim as stated. -/
theorem needsUpload_ignores_contentTag :
    needsUpload [("a.txt", ⟨"d41d8", 100, 5⟩)]
      ⟨"in/a.txt", "a.txt", 5, 100, false⟩ = false ∧
    (uploadEntry ⟨"in/a.txt", "a.txt", 5, 100, false⟩).2 ≠
      (⟨"d41d8", 100, 5⟩ : FileState) := by
  decide

/-- C2 (amended): after a successful incremental run the persisted map
is the loaded state overridden by the fresh catalog, not replaced by
it: every listed object with a nonempty key is written with its freshly
observed fingerprint, keys the fresh catalog does not mention keep
their previous record (no pruning), and on the upload side only the
transferred subset is rewritten (keys outside it keep their previous
record). -/
theorem state_rewrite_semantics :
    (∀ (st : StateFiles) (objs : List S3Object) (o : S3Object),
      (objs.map S3Object.key).Nodup → o ∈ objs → (o.key == "") = false →
      lookupFile (updateState true st objs) o.key =
        some { etag := trimQuotes o.etag, lastModified := o.lastModified,
               size := o.size }) ∧
    (∀ (st : StateFiles) (objs : List S3Object) (k : String),
      (∀ o ∈ objs, o.key ≠ k) →
      lookupFile (updateState true st objs) k = lookupFile st k) ∧
    (∀ (st : StateFiles) (sel : List LocalFile) (k : String),
      (∀ f ∈ sel, f.key ≠ k) →
      lookupFile (updateStateUpload true st sel) k = lookupFile st k) :=
  ⟨fun st objs o hnd ho hk => lookupFile_updateState_mem st objs o hnd ho hk,
   fun st objs k h => lookupFile_updateState_not_mem st objs k h,
   fun st sel k h => lookupFile_updateStateUpload_not_mem st sel k h⟩

/-- Witness for C2: one listed object is refreshed, one absent key is
left alone. -/
theorem state_rewrite_semantics_witness :
    lookupFile (updateState true [("gone.txt", ⟨"x", 1, 2⟩)]
        [⟨"a.txt", "\"t1\"", 100, 10⟩]) "a.txt" =
      some ⟨trimQuotes "\"t1\"", 100, 10⟩ ∧
    lookupFile (updateState true [("gone.txt", ⟨"x", 1, 2⟩)]
        [⟨"a.txt", "\"t1\"", 100, 10⟩]) "gone.txt" =
      lookupFile [("gone.txt", ⟨"x", 1, 2⟩)] "gone.txt" :=
  ⟨state_rewrite_semantics.1 [("gone.txt", ⟨"x", 1, 2⟩)]
      [⟨"a.txt", "\"t1\"", 100, 10⟩] ⟨"a.txt", "\"t1\"", 100, 10⟩
      (by decide) (by decide) (by decide),
   state_rewrite_semantics.2.1 [("gone.txt", ⟨"x", 1, 2⟩)]
      [⟨"a.txt", "\"t1\"", 100, 10⟩] "gone.txt" (by decide)⟩

/-- C2 counterexample: with an empty fresh catalog the persisted state
still holds the previously recorded key, so the persisted mapping does
not equal the fresh catalog mapping (no pruning happens); and an upload
run whose transfer set is empty leaves a skipped file's record at its
stale value, which differs from the freshly observed fingerprint in the
ETag field, so skipped entries are not rewritten with fresh values. -/
theorem updateState_keeps_stale_key :
    lookupFile (updateState true [("gone.txt", ⟨"t", 1, 2⟩)] []) "gone.txt" =
      some ⟨"t", 1, 2⟩ ∧
    lookupFile (updateStateUpload true [("a.txt", ⟨"old", 100, 5⟩)] []) "a.txt" =
      some ⟨"old", 100, 5⟩ ∧
    (uploadEntry ⟨"in/a.txt", "a.txt", 5, 100, false⟩).2 ≠
      (⟨"old", 100, 5⟩ : FileState) := by
  decide

/-- C3 (amended): on the download side a non-container entry whose
destination path does not exist is selected whatever the state holds,
and an entry with no recorded fingerprint is selected whatever the
destination looks like; on the upload side only the no-prior-fingerprint
clause exists, because the upload diff never probes the destination
(see the counterexample). -/
theorem missing_destination_selected :
    (∀ (dest : String → Bool) (od key etag : String) (t s : Int)
        (files : StateFiles),
      dest (joinPath od key) = false →
      needsDownload dest od key etag t s files = true) ∧
    (∀ (dest : String → Bool) (od key etag : String) (t s : Int)
        (files : StateFiles),
      lookupFile files key = none →
      needsDownload dest od key etag t s files = true) ∧
    (∀ (files : StateFiles) (f : LocalFile),
      lookupFile files f.key = none → needsUpload files f = true) := by
  refine ⟨?_, ?_, ?_⟩
  · intro dest od key etag t s files h
    simp [needsDownload, h]
  · intro dest od key etag t s files h
    by_cases hd : dest (joinPath od key) <;> simp [needsDownload, hd, h]
  · intro files f h
    simp [needsUpload, h]

/-- Witness for C3: a missing destination, a missing download record and
a missing upload record each force selection at concrete inputs. -/
theorem missing_destination_selected_witness :
    needsDownload destAlwaysFalse "out" "a.txt" "t1" 1 2
      [("a.txt", ⟨"t1", 1, 2⟩)] = true ∧
    needsDownload destAlwaysTrue "out" "new.txt" "t2" 3 4 [] = true ∧
    needsUpload [] ⟨"in/c.txt", "c.txt", 9, 8, false⟩ = true :=
  ⟨missing_destination_selected.1 destAlwaysFalse "out" "a.txt" "t1" 1 2
      [("a.txt", ⟨"t1", 1, 2⟩)] rfl,
   missing_destination_selected.2.1 destAlwaysTrue "out" "new.txt" "t2" 3 4 [] rfl,
   missing_destination_selected.2.2 [] ⟨"in/c.txt", "c.txt", 9, 8, false⟩ rfl⟩

/-- C3 counterexample: the upload diff function has no destination probe
at all, so an entry whose recorded modifiedAt and sizeBytes match is
skipped no matter what the destination holds, in particular when the
destination object is absent, where the claim requires selection. -/
theorem needsUpload_skips_despite_missing_destination :
    needsUpload [("b.txt", ⟨"", 7, 3⟩)]
      ⟨"in/b.txt", "b.txt", 3, 7, false⟩ = false := by
  decide

/-- C5 (amended): on the download side an incremental container marker
(nonempty key ending in a slash, size zero) is selected exactly when the
destination directory is missing, the recorded fingerprint and content
playing no role (the right-hand side mentions neither); on the upload
side markers go through the same fingerprint gate as regular files and
the destination is never probed (see the counterexample). -/
theorem container_marker_selection :
    (∀ (dest : String → Bool) (od : String) (files : StateFiles)
        (obj : S3Object),
      (obj.key == "") = false → endsWithSlash obj.key = true → obj.size = 0 →
      selectObject true dest od files obj = !(dest (joinPath od obj.key))) ∧
    (∀ (files : StateFiles) (f : LocalFile),
      selectFile true files f = needsUpload files f) := by
  constructor
  · intro dest od files obj hk hsfx hz
    simp [selectObject, hk, hsfx, hz]
  · intro files f
    simp [selectFile]

/-- Witness for C5: a concrete marker against a missing directory. -/
theorem container_marker_selection_witness :
    selectObject true destAlwaysFalse "out" [] ⟨"d/", "\"e\"", 5, 0⟩ =
      !(destAlwaysFalse (joinPath "out" "d/")) ∧
    selectFile true [] ⟨"d", "d/", 0, 5, true⟩ =
      needsUpload [] ⟨"d", "d/", 0, 5, true⟩ :=
  ⟨container_marker_selection.1 destAlwaysFalse "out" [] ⟨"d/", "\"e\"", 5, 0⟩
      (by decide) (by decide) rfl,
   container_marker_selection.2 [] ⟨"d", "d/", 0, 5, true⟩⟩

/-- C5 counterexample: the same upload container marker, with everything
about the destination unchanged (the upload path owns no destination
probe), is selected when no fingerprint is recorded and skipped when a
matching fingerprint is recorded, so on upload jobs the recorded
fingerprint decides the marker and existence does not, refuting the
claim as stated. -/
theorem upload_marker_gated_by_fingerprint :
    needsUpload [] ⟨"d", "d/", 0, 7, true⟩ = true ∧
    needsUpload [("d/", ⟨"", 7, 0⟩)] ⟨"d", "d/", 0, 7, true⟩ = false := by
  decide

/-- C9: serializing a SyncState and decoding it back yields the very
same state, so in particular an identical key set and an identical
fingerprint for every key; the files map of a real state never holds a
key twice, which the nodup hypothesis expresses. -/
theorem state_round_trip (st : State)
    (hnd : (st.files.map Prod.fst).Nodup) :
    decodeState (encodeState st) = st := by
  have h : insertAll [] st.files = st.files := by
    have h2 := insertAll_of_disjoint st.files [] hnd (fun p _ => by simp)
    simpa using h2
  cases st with
  | mk lb fs =>
      simp only [decodeState, encodeState] at *
      simp [h]

/-- Witness for C9: a concrete two-entry state survives the round trip. -/
theorem state_round_trip_witness :
    decodeState (encodeState ⟨5, [("a.txt", ⟨"t1", 1, 10⟩), ("b/", ⟨"", 2, 0⟩)]⟩) =
      (⟨5, [("a.txt", ⟨"t1", 1, 10⟩), ("b/", ⟨"", 2, 0⟩)]⟩ : State) :=
  state_round_trip _ (by decide)

/-- C4: idempotence of an incremental run. After a first successful run
(whose transfers make every selected destination path exist and whose
state update records every listed object), a second run over the
unchanged catalog selects nothing: on the download side every object is
skipped against the updated state and enlarged local tree, and on the
upload side every file is skipped against the updated state. Listing
keys are pairwise distinct, as both enumerators report each key once. -/
theorem second_run_selects_nothing :
    (∀ (dest : String → Bool) (od : String) (st : StateFiles)
        (objs : List S3Object), (objs.map S3Object.key).Nodup →
      filterObjects true
        (afterDownload dest od (filterObjects true dest od st objs)) od
        (updateState true st objs) objs = []) ∧
    (∀ (st : StateFiles) (files : List LocalFile),
        (files.map LocalFile.key).Nodup →
      filterFiles true (updateStateUpload true st (filterFiles true st files))
        files = []) := by
  constructor
  · intro dest od st objs hnd
    apply List.filter_eq_nil_iff.mpr
    intro o ho
    rw [Bool.not_eq_true]
    by_cases hk : o.key == ""
    · simp [selectObject, hk]
    · by_cases hm : (endsWithSlash o.key && o.size == 0)
      · have hdest2 : afterDownload dest od (filterObjects true dest od st objs)
            (joinPath od o.key) = true := by
          by_cases hd : dest (joinPath od o.key)
          · simp [afterDownload, hd]
          · have hosel : o ∈ filterObjects true dest od st objs :=
              List.mem_filter.mpr ⟨ho, by simp [selectObject, hk, hm, hd]⟩
            simp [afterDownload]
            exact Or.inr ⟨o, hosel, by simp⟩
        simp [selectObject, hk, hm, hdest2]
      · have hdest2 : afterDownload dest od (filterObjects true dest od st objs)
            (joinPath od o.key) = true := by
          by_cases hd : dest (joinPath od o.key)
          · simp [afterDownload, hd]
          · have hneed : needsDownload dest od o.key (trimQuotes o.etag)
                o.lastModified o.size st = true := by
              simp [needsDownload, hd]
            have hosel : o ∈ filterObjects true dest od st objs :=
              List.mem_filter.mpr ⟨ho, by simp [selectObject, hk, hm, hneed]⟩
            simp [afterDownload]
            exact Or.inr ⟨o, hosel, by simp⟩
        have hlk := lookupFile_updateState_mem st objs o hnd ho (by simpa using hk)
        simp [selectObject, hk, hm, needsDownload, hdest2, hlk]
        exact ⟨⟨rfl, rfl⟩, rfl⟩
  · intro st files hnd
    apply List.filter_eq_nil_iff.mpr
    intro f hf
    rw [Bool.not_eq_true]
    have hsel_nodup : ((filterFiles true st files).map LocalFile.key).Nodup :=
      hnd.sublist ((List.filter_sublist files).map LocalFile.key)
    by_cases h1 : needsUpload st f
    · have hfsel : f ∈ filterFiles true st files :=
        List.mem_filter.mpr ⟨hf, by simp [selectFile, h1]⟩
      have hlk := lookupFile_updateStateUpload_mem st _ f hsel_nodup hfsel
      simp [selectFile, needsUpload, hlk, uploadEntry]
    · have hne : ∀ g ∈ filterFiles true st files, g.key ≠ f.key := by
        intro g hg hkey
        have hgf : g = f :=
          List.inj_on_of_nodup_map hnd (List.mem_of_mem_filter hg) hf hkey
        rw [hgf] at hg
        have hsel : selectFile true st f = true := (List.mem_filter.mp hg).2
        simp [selectFile] at hsel
        exact h1 hsel
      have hlk2 := lookupFile_updateStateUpload_not_mem st _ f.key hne
      cases hlu : lookupFile st f.key with
      | none => simp [needsUpload, hlu] at h1
      | some fp =>
          have hmatch : fp.lastModified = f.lastModified ∧ fp.size = f.size := by
            simp [needsUpload, hlu] at h1
            exact h1
          simp [selectFile, needsUpload, hlk2, hlu, hmatch.1, hmatch.2]

/-- Witness for C4: a two-object remote catalog (one file, one marker)
against an empty local tree and empty state selects nothing on the
second run; likewise one local file on the upload side. -/
theorem second_run_selects_nothing_witness :
    filterObjects true
      (afterDownload destAlwaysFalse "out"
        (filterObjects true destAlwaysFalse "out" []
          [⟨"a.txt", "\"t1\"", 100, 10⟩, ⟨"d/", "\"e\"", 5, 0⟩]))
      "out"
      (updateState true [] [⟨"a.txt", "\"t1\"", 100, 10⟩, ⟨"d/", "\"e\"", 5, 0⟩])
      [⟨"a.txt", "\"t1\"", 100, 10⟩, ⟨"d/", "\"e\"", 5, 0⟩] = [] ∧
    filterFiles true
      (updateStateUpload true []
        (filterFiles true [] [⟨"in/a.txt", "a.txt", 10, 100, false⟩]))
      [⟨"in/a.txt", "a.txt", 10, 100, false⟩] = [] :=
  ⟨second_run_selects_nothing.1 destAlwaysFalse "out" []
      [⟨"a.txt", "\"t1\"", 100, 10⟩, ⟨"d/", "\"e\"", 5, 0⟩] (by decide),
   second_run_selects_nothing.2 []
      [⟨"in/a.txt", "a.txt", 10, 100, false⟩] (by decide)⟩

end ObjectSync
